import Mathlib

/-!
Shallow embedding of the `database.py` module of the `db_module` repository
(sqlalchemy-based time-series storage for a cluster-monitoring system),
together with theorems settling the specification claims.

Modelling conventions:
* A SQL row / a Python dict is an association list `List (String × Value)`;
  an absent key models SQL NULL / an absent dict key.
* A parameter table is a schema (column names with types) plus a row list;
  the database is an association list from table names to tables.
* Fallible operations return `Except DbError _`; the error constructors
  mirror the Python exceptions (`NoSuchTableError`, `KeyError`, `IndexError`).
* `time.time()` values are integers (seconds); SQL `Decimal` and float
  values are carried as rationals, which is adequate because the code only
  moves them around (the one conversion, Decimal-to-float on read, is
  modelled by the `convertValue` constructor change).
-/

/-- A SQL cell value: integers, Decimal (fixed point), float, text, bool. -/
inductive Value where
  | vint (n : Int)
  | vdec (q : ℚ)
  | vfloat (q : ℚ)
  | vtext (s : String)
  | vbool (b : Bool)
deriving DecidableEq, Repr

/-- Column types, mirroring the sqlalchemy type objects used by the code. -/
inductive ColType where
  | tInteger
  | tFloat
  | tBoolean
  | tText
deriving DecidableEq, Repr

/-- `get_times_values` converts `Decimal` results to `float`:
`if isinstance(value, Decimal): value = float(value)`. -/
def convertValue : Value → Value
  | .vdec q => .vfloat q
  | v => v

/-- A Python dict / SQL row: association list from column name to value. -/
abbrev Rec := List (String × Value)

/-- First-match association-list lookup (Python dict read, SQL column read). -/
def lookupA (k : String) : List (String × α) → Option α
  | [] => none
  | kv :: rest => if kv.1 = k then some kv.2 else lookupA k rest

/-- Replace the value at every entry whose key is `k` (no-op if absent). -/
def setA (l : List (String × α)) (k : String) (v : α) : List (String × α) :=
  l.map fun kv => if kv.1 = k then (k, v) else kv

/-- Python dict assignment `d[k] = v`: overwrite if present, append if not. -/
def dictSet (l : List (String × α)) (k : String) (v : α) : List (String × α) :=
  if k ∈ l.map Prod.fst then setA l k v else l ++ [(k, v)]

/-- A parameter table: the reflected schema (column names with their types)
and the stored rows.  Mirrors one sqlalchemy `Table` of the database. -/
structure TableData where
  columns : List (String × ColType)
  rows : List Rec
deriving DecidableEq, Repr

/-- The logical database: association list from table name to table. -/
abbrev DB := List (String × TableData)

/-- The value of the `time` column of a row (the table primary key). -/
def rowTime (row : Rec) : Option Value := lookupA "time" row

/-- The `time` column as an integer; rows written by the module always carry
`some (vint _)` there (the well-formedness predicates below), so the `0`
default is never relied upon by any theorem. -/
def rowTimeInt (row : Rec) : Int :=
  match rowTime row with
  | some (.vint n) => n
  | _ => 0

/-- The integer time values of the rows of a table. -/
def timesOf (t : TableData) : List Int := t.rows.map rowTimeInt

/-- Row `row` updated by `UPDATE ... .values(**rec)`: each column named in
`rec` is overwritten with the value from `rec`, every other cell kept. -/
def updateRow (row : Rec) (rec : Rec) : Rec :=
  rec.foldl (fun r kv => dictSet r kv.1 kv.2) row

/-- `DatabaseOperator._insert_in_session`: try `INSERT`; a row with the same
primary-key `time` raises `IntegrityError`, answered by
`UPDATE ... WHERE time == rec["time"]` with the new values. -/
def DatabaseOperator.insert_in_session (t : TableData) (rec : Rec) : TableData :=
  if t.rows.any (fun row => decide (rowTime row = rowTime rec)) then
    { t with
      rows := t.rows.map fun row =>
        if rowTime row = rowTime rec then updateRow row rec else row }
  else
    { t with rows := t.rows ++ [rec] }

/-- Every row of the table carries an integer `time` cell. -/
def intTimed (t : TableData) : Prop :=
  ∀ row ∈ t.rows, rowTime row = some (Value.vint (rowTimeInt row))

/-- Table well-formedness: integer `time` cells and primary-key uniqueness
(no two rows share a `time`). -/
def wfTable (t : TableData) : Prop :=
  intTimed t ∧ (timesOf t).Nodup

instance (t : TableData) : Decidable (intTimed t) := by
  unfold intTimed
  infer_instance

instance (t : TableData) : Decidable (wfTable t) := by
  unfold wfTable
  infer_instance

/-! ### SafeSession.__exit__ (claim C5)

`__exit__` runs `self.commit()` inside `try`; only
`sqlexc.InvalidRequestError` is caught (then logged and answered by
`self.rollback()`); afterwards `self.close()` runs.  A commit failure of any
other class, or a raising rollback, propagates out of `__exit__` before
`self.close()` is reached.  The model enumerates the commit outcomes and
whether the rollback raises, and records which calls were made. -/

/-- Outcome of the `self.commit()` call in `SafeSession.__exit__`. -/
inductive CommitOutcome where
  | ok
  | invalidRequestError
  | otherError
deriving DecidableEq, Repr

/-- Which calls `SafeSession.__exit__` performed, and whether an exception
escaped it. -/
structure ExitTrace where
  commit_attempted : Bool
  rollback_attempted : Bool
  closed : Bool
  exception_escaped : Bool
deriving DecidableEq, Repr

/-- `SafeSession.__exit__`, as a function of the commit outcome and of
whether the recovery `rollback()` itself raises. -/
def SafeSession.exit (c : CommitOutcome) (rollback_raises : Bool) : ExitTrace :=
  match c with
  | .ok => ⟨true, false, true, false⟩
  | .invalidRequestError =>
      if rollback_raises then ⟨true, true, false, true⟩
      else ⟨true, true, true, false⟩
  | .otherError => ⟨true, false, false, true⟩

/-! ### DatabaseOperator.get_size (claim C8) -/

/-- `self.size_update_time = 60 * 60 * 3  # in seconds`. -/
def size_update_time : Int := 60 * 60 * 3

/-- The two cache fields set in `DatabaseOperator.__init__`
(`last_get_size_time = 0`, `cached_db_size = None`). -/
structure SizeCacheState where
  last_get_size_time : Int
  cached_db_size : Option Int
deriving DecidableEq, Repr

/-- What one `get_size` call returned and left behind. -/
structure GetSizeCall where
  result : Option Int
  state : SizeCacheState
  recomputed : Bool
deriving DecidableEq, Repr

/-- `DatabaseOperator.get_size`.  `tcheck` is the `time.time()` value read by
the guard, `tstore` the (slightly later) `time.time()` value stored after the
aggregate query, `fresh_size` the value the aggregate query would report. -/
def DatabaseOperator.get_size (tcheck tstore : Int) (fresh_size : Int)
    (st : SizeCacheState) : GetSizeCall :=
  if st.last_get_size_time + size_update_time < tcheck then
    ⟨some fresh_size, ⟨tstore, some fresh_size⟩, true⟩
  else
    ⟨st.cached_db_size, st, false⟩

/-! ### The reader: range queries (claims C2, C4, C7, C9, C10) -/

/-- Errors surfaced by the read/write operations, mirroring the Python
exceptions: sqlalchemy `NoSuchTableError` from `Table(..., autoload=True)`,
`KeyError` from `table.columns[device_name]`, `IndexError` from
`row_list[0]` / `row_list[-1]` on an empty list. -/
inductive DbError where
  | noSuchTableError
  | keyError
  | indexError
deriving DecidableEq, Repr

/-- Python truthiness of an optional time bound: `None` and `0` are falsy
(the source guards are `if begin_time and end_time`, `elif begin_time`,
`elif end_time`). -/
def truthy : Option Int → Bool
  | none => false
  | some n => decide (n ≠ 0)

/-- The WHERE clause built by `get_query_according_to_times`:
`between(time, begin, end)` when both bounds are truthy, `time >= begin`
when only the lower one is, `time <= end` when only the upper one is,
no filter otherwise.  sqlalchemy `between` is inclusive on both sides. -/
def timeFilter (begin_time end_time : Option Int) (τ : Int) : Bool :=
  if truthy begin_time && truthy end_time then
    decide (begin_time.getD 0 ≤ τ) && decide (τ ≤ end_time.getD 0)
  else if truthy begin_time then decide (begin_time.getD 0 ≤ τ)
  else if truthy end_time then decide (τ ≤ end_time.getD 0)
  else true

/-- Descending-time order on rows (`ORDER BY time DESC`). -/
def timeDesc (a b : Rec) : Prop := rowTimeInt b ≤ rowTimeInt a

/-- Ascending-time order on rows (`ORDER BY time ASC`). -/
def timeAsc (a b : Rec) : Prop := rowTimeInt a ≤ rowTimeInt b

instance : DecidableRel timeDesc := fun _ _ => Int.decLe _ _

instance : DecidableRel timeAsc := fun _ _ => Int.decLe _ _

instance : IsTotal Rec timeDesc := ⟨fun _ _ => le_total _ _⟩

instance : IsTotal Rec timeAsc := ⟨fun _ _ => le_total _ _⟩

instance : IsTrans Rec timeDesc := ⟨fun _ _ _ h1 h2 => le_trans h2 h1⟩

instance : IsTrans Rec timeAsc := ⟨fun _ _ _ h1 h2 => le_trans h1 h2⟩

/-- `CollectedDataOperator.get_query_according_to_times`: the result rows of
`select([time, dev_column]).order_by(desc(time))` with the range WHERE
clause, projected to `(time, value)` pairs. -/
def CollectedDataOperator.get_query_according_to_times (t : TableData)
    (device_name : String) (begin_time end_time : Option Int) :
    List (Int × Option Value) :=
  ((List.insertionSort timeDesc t.rows).filter
      (fun row => timeFilter begin_time end_time (rowTimeInt row))).map
    (fun row => (rowTimeInt row, lookupA device_name row))

/-- The `times_values` list accumulated by `get_times_values` from the query
result: each fetched value is converted `Decimal`-to-`float`. -/
def times_values (t : TableData) (device_name : String)
    (begin_time end_time : Option Int) : List (Int × Option Value) :=
  (CollectedDataOperator.get_query_according_to_times t device_name
      begin_time end_time).map
    (fun tv => (tv.1, tv.2.map convertValue))

/-- `CollectedDataOperator.get_times_values`: autoload the parameter table
(`NoSuchTableError` if absent), resolve the device column (`KeyError` if
absent), run the range query. -/
def CollectedDataOperator.get_times_values (db : DB)
    (device_name parameter_name : String) (begin_time end_time : Option Int) :
    Except DbError (List (Int × Option Value)) :=
  match lookupA parameter_name db with
  | none => .error .noSuchTableError
  | some t =>
      if device_name ∈ t.columns.map Prod.fst then
        .ok (times_values t device_name begin_time end_time)
      else .error .keyError

/-- `CollectedDataOperator.get_last_data`: most-recent-first with `LIMIT`. -/
def CollectedDataOperator.get_last_data (db : DB)
    (device_name parameter_name : String) (limit : Nat) :
    Except DbError (List (Int × Option Value)) :=
  match lookupA parameter_name db with
  | none => .error .noSuchTableError
  | some t =>
      if device_name ∈ t.columns.map Prod.fst then
        .ok (((List.insertionSort timeDesc t.rows).take limit).map
          (fun row => (rowTimeInt row, (lookupA device_name row).map convertValue)))
      else .error .keyError

/-- `CollectedDataOperator.get_time_interval`: select the `time` column in
ascending order and return `(row_list[0][0], row_list[-1][0])`; the
unconditional indexing raises `IndexError` on an empty table. -/
def CollectedDataOperator.get_time_interval (db : DB) (table_name : String) :
    Except DbError (Int × Int) :=
  match lookupA table_name db with
  | none => .error .noSuchTableError
  | some t =>
      match (List.insertionSort timeAsc t.rows).head?,
        (List.insertionSort timeAsc t.rows).getLast? with
      | some r0, some r1 => .ok (rowTimeInt r0, rowTimeInt r1)
      | _, _ => .error .indexError


/-! ### The writer: grouping and saving collected data (claims C1, C3) -/

/-- A parameter descriptor as the writer reads it: `name`, current `value`,
`last_collected` timestamp. -/
structure Param where
  name : String
  value : Value
  last_collected : Int
deriving DecidableEq, Repr

/-- A device: `name` and `params_dict.values()` in iteration order. -/
structure Device where
  name : String
  params_dict : List Param
deriving DecidableEq, Repr

/-- The `continue` guard of `get_data_to_save`:
`do_time_check and param.last_collected != cur_time and param.name != 'online'`. -/
def skipReading (do_time_check : Bool) (cur_time : Int) (p : Param) : Bool :=
  do_time_check && decide (p.last_collected ≠ cur_time) &&
    decide (p.name ≠ "online")

/-- One non-skipped iteration of the `get_data_to_save` loop body: create
`{'time': cur_time}` if the parameter has no record yet, then
`data_to_save[param.name][device.name] = param.value`. -/
def insertReading (acc : List (String × Rec)) (cur_time : Int)
    (pname dname : String) (v : Value) : List (String × Rec) :=
  let rec0 :=
    match lookupA pname acc with
    | none => dictSet [] "time" (Value.vint cur_time)
    | some r => r
  dictSet acc pname (dictSet rec0 dname v)

/-- `CollectedDataOperator.get_data_to_save`: group the readings of the
given devices into one record per parameter name. -/
def CollectedDataOperator.get_data_to_save (cur_time : Int)
    (given_devices : List Device) (do_time_check : Bool) :
    List (String × Rec) :=
  given_devices.foldl
    (fun acc device =>
      device.params_dict.foldl
        (fun acc param =>
          if skipReading do_time_check cur_time param then acc
          else insertReading acc cur_time param.name device.name param.value)
        acc)
    []

/-- The `(device name, parameter)` pairs visited by the two nested loops of
`get_data_to_save`, in iteration order. -/
def readingsOf : List Device → List (String × Param)
  | [] => []
  | d :: ds => d.params_dict.map (fun p => (d.name, p)) ++ readingsOf ds

/-- The `get_data_to_save` loop as a single fold over the flattened
reading list (proved equal to the nested form below). -/
def processReadings (do_time_check : Bool) (cur_time : Int)
    (acc : List (String × Rec)) : List (String × Param) → List (String × Rec)
  | [] => acc
  | r :: rs =>
      processReadings do_time_check cur_time
        (if skipReading do_time_check cur_time r.2 then acc
         else insertReading acc cur_time r.2.name r.1 r.2.value) rs

/-- The value recorded for device `dname` under parameter `pname`. -/
def lookupDev (pname dname : String) (acc : List (String × Rec)) :
    Option Value :=
  match lookupA pname acc with
  | none => none
  | some r => lookupA dname r

/-- `CollectedDataOperator.save_data`: group, then `_insert_in_session` each
record into its parameter table inside one session; a parameter without a
backing table raises `NoSuchTableError` out of the loop. -/
def CollectedDataOperator.save_data (db : DB) (cur_time : Int)
    (given_devices : List Device) (do_time_check : Bool) : Except DbError DB :=
  (CollectedDataOperator.get_data_to_save cur_time given_devices
      do_time_check).foldlM
    (fun db' pr =>
      match lookupA pr.1 db' with
      | none => Except.error DbError.noSuchTableError
      | some t =>
          Except.ok (setA db' pr.1 (DatabaseOperator.insert_in_session t pr.2)))
    db

/-- First row of a row list holding time `τ`. -/
def findRow (τ : Int) : List Rec → Option Rec
  | [] => none
  | row :: rows =>
      if rowTime row = some (Value.vint τ) then some row else findRow τ rows

/-- The row of a table holding time `τ` (`WHERE time == τ`). -/
def findRowByTime (t : TableData) (τ : Int) : Option Rec :=
  findRow τ t.rows

/-- How many rows hold time `τ`. -/
def countRowsWithTime (t : TableData) (τ : Int) : Nat :=
  (t.rows.filter (fun row => decide (rowTime row = some (Value.vint τ)))).length

/-! ### Schema alteration (claim C6) -/

/-- The `for dev in column_names` loop of `alter_table` issuing
`engine.execute('ALTER TABLE ... ADD COLUMN ...')` via `_add_column`.
`existing` is `existing_column_names`, computed once before the loop.  A
name passing that stale check but equal to a column added earlier in the
same loop makes the DDL statement fail (duplicate column name); that error
is not `NoSuchTableError`, so it escapes the `except` clause and aborts the
loop, keeping the alterations already applied (the `true` flag records the
escaped exception). -/
def alterGo (t : TableData) (existing : List String) (type_ : ColType) :
    List String → TableData × Bool
  | [] => (t, false)
  | c :: cs =>
      if c ∈ existing then alterGo t existing type_ cs
      else if c ∈ t.columns.map Prod.fst then (t, true)
      else
        alterGo { t with columns := t.columns ++ [(c, type_)] }
          existing type_ cs

/-- `DatabaseOperator.alter_table`: autoload the table (a missing table
raises `NoSuchTableError`, caught by `except ... pass`), then add each
listed column that is not in the pre-computed existing-column list. -/
def DatabaseOperator.alter_table (db : DB) (table_name : String)
    (column_names : List String) (type_ : ColType) : DB × Bool :=
  match lookupA table_name db with
  | none => (db, false)
  | some t =>
      let res := alterGo t (t.columns.map Prod.fst) type_ column_names
      (setA db table_name res.1, res.2)

/-- A three-row fixture table (device column `d`) used to instantiate the
reader theorems on concrete data. -/
def sampleTable : TableData :=
  ⟨[("time", ColType.tInteger), ("d", ColType.tFloat)],
    [[("time", Value.vint 10), ("d", Value.vdec 1)],
     [("time", Value.vint 20), ("d", Value.vdec 2)],
     [("time", Value.vint 30), ("d", Value.vdec 3)]]⟩

/-- A one-table fixture database holding `sampleTable` as parameter `p`. -/
def sampleDB : DB := [("p", sampleTable)]

/-- Fixture: an initially empty table written by two upserts at times 100
and 120 (the spec's `T` and `T + 20` scenario). -/
def savedTwiceTable : TableData :=
  DatabaseOperator.insert_in_session
    (DatabaseOperator.insert_in_session
      ⟨[("time", ColType.tInteger), ("TestCollDBDev", ColType.tFloat)], []⟩
      [("time", Value.vint 100), ("TestCollDBDev", Value.vdec 1)])
    [("time", Value.vint 120), ("TestCollDBDev", Value.vdec 2)]

/-- A one-table fixture database holding `savedTwiceTable`. -/
def savedTwiceDB : DB := [("CpuTemp2", savedTwiceTable)]

/-- Fixture record: value 9 for device `d` at time 20. -/
def recAt20 : Rec := [("time", Value.vint 20), ("d", Value.vdec 9)]

/-- Fixture record: value 7 for device `d` at time 20. -/
def recAt20' : Rec := [("time", Value.vint 20), ("d", Value.vdec 7)]

/-- Fixture parameters and devices for the writer theorems: two devices, a
shared parameter name, a stale parameter and an `online` parameter. -/
def pCpu1a : Param := ⟨"CpuTemp1", Value.vdec 1, 50⟩

/-- Fixture: a stale parameter (`last_collected` 40, not the current 50). -/
def pCpu2a : Param := ⟨"CpuTemp2", Value.vdec 2, 40⟩

/-- Fixture: a stale `online` parameter (always written regardless). -/
def pOnline : Param := ⟨"online", Value.vbool true, 40⟩

/-- Fixture: the shared parameter as reported by the second device. -/
def pCpu1b : Param := ⟨"CpuTemp1", Value.vdec 3, 50⟩

/-- Fixture device 1. -/
def dev1 : Device := ⟨"dev1", [pCpu1a, pCpu2a, pOnline]⟩

/-- Fixture device 2. -/
def dev2 : Device := ⟨"dev2", [pCpu1b]⟩

/-! ### Supporting lemmas and claim theorems -/

theorem lookupA_append (k : String) (l₁ l₂ : List (String × α)) :
    lookupA k (l₁ ++ l₂) =
      match lookupA k l₁ with
      | some v => some v
      | none => lookupA k l₂ := by
  induction l₁ with
  | nil => rfl
  | cons kv rest ih =>
    by_cases h : kv.1 = k <;> simp [lookupA, h, ih]

theorem lookupA_eq_none_iff (k : String) (l : List (String × α)) :
    lookupA k l = none ↔ k ∉ l.map Prod.fst := by
  induction l with
  | nil => simp [lookupA]
  | cons kv rest ih =>
    simp only [lookupA, List.map_cons, List.mem_cons]
    by_cases h : kv.1 = k
    · simp [h]
    · simp only [h, if_false, ih]
      constructor
      · intro hn hc
        rcases hc with hc | hc
        · exact h hc.symm
        · exact hn hc
      · exact fun hn hc => hn (Or.inr hc)

theorem lookupA_isSome_iff (k : String) (l : List (String × α)) :
    (lookupA k l).isSome = true ↔ k ∈ l.map Prod.fst := by
  rcases h : lookupA k l with _ | v
  · rw [lookupA_eq_none_iff] at h
    simp [h]
  · have : ¬ lookupA k l = none := by simp [h]
    rw [lookupA_eq_none_iff] at this
    simp [h, not_not.mp this]

theorem setA_map_fst (l : List (String × α)) (k : String) (v : α) :
    (setA l k v).map Prod.fst = l.map Prod.fst := by
  induction l with
  | nil => rfl
  | cons kv rest ih =>
    simp only [setA, List.map_cons] at ih ⊢
    by_cases h : kv.1 = k
    · simp [h, ih]
    · simp [h, ih]

theorem lookupA_setA (k' k : String) (l : List (String × α)) (v : α) :
    lookupA k' (setA l k v) =
      if k' = k then (lookupA k l).map (fun _ => v) else lookupA k' l := by
  induction l with
  | nil => by_cases h : k' = k <;> simp [setA, lookupA, h]
  | cons kv rest ih =>
    simp only [setA, List.map_cons] at ih ⊢
    by_cases h : kv.1 = k
    · by_cases h' : k' = k
      · subst h'
        simp [lookupA, h, ih]
      · have hk : ¬ k = k' := fun hc => h' hc.symm
        rw [if_pos h]
        simp [lookupA, hk, ih, h', h]
    · by_cases h' : kv.1 = k'
      · have hne : ¬ k' = k := fun hc => h (h'.trans hc)
        simp [lookupA, h, h', hne]
      · simp [lookupA, h, h', ih]

theorem lookupA_dictSet (k' k : String) (l : List (String × α)) (v : α) :
    lookupA k' (dictSet l k v) = if k' = k then some v else lookupA k' l := by
  unfold dictSet
  by_cases hmem : k ∈ l.map Prod.fst
  · rw [if_pos hmem, lookupA_setA]
    by_cases h' : k' = k
    · rcases h : lookupA k l with _ | w
      · rw [lookupA_eq_none_iff] at h; exact absurd hmem h
      · simp [h', h]
    · simp [h']
  · rw [if_neg hmem, lookupA_append]
    by_cases h' : k' = k
    · subst h'
      have : lookupA k' l = none := (lookupA_eq_none_iff k' l).mpr hmem
      simp [this, lookupA]
    · have h'' : ¬ k = k' := fun hc => h' hc.symm
      rcases h : lookupA k' l with _ | w <;> simp [lookupA, h', h, h'']

theorem dictSet_map_fst (l : List (String × α)) (k : String) (v : α) :
    (dictSet l k v).map Prod.fst =
      if k ∈ l.map Prod.fst then l.map Prod.fst else l.map Prod.fst ++ [k] := by
  unfold dictSet
  by_cases hmem : k ∈ l.map Prod.fst <;> simp [hmem, setA_map_fst]

theorem dictSet_nodup_fst (l : List (String × α)) (k : String) (v : α)
    (h : (l.map Prod.fst).Nodup) : ((dictSet l k v).map Prod.fst).Nodup := by
  rw [dictSet_map_fst]
  by_cases hmem : k ∈ l.map Prod.fst
  · simpa [hmem]
  · simp only [hmem, if_false]
    exact List.Nodup.append h (List.nodup_singleton k) (by simpa using hmem)

/-- Claim C5 counterexample: when `commit()` raises anything other than
`InvalidRequestError` (modelled by `CommitOutcome.otherError`), `__exit__`
neither rolls back nor closes the session — the exception escapes before
`self.close()` is reached, so the claim "on every exit path the session is
still closed" is false on this path. -/
theorem c5_exit_counterexample :
    (SafeSession.exit CommitOutcome.otherError false).closed = false ∧
    (SafeSession.exit CommitOutcome.otherError false).rollback_attempted = false ∧
    (SafeSession.exit CommitOutcome.otherError false).exception_escaped = true := by
  decide

/-- Claim C5 (amended): on exit a commit is always attempted; a rollback is
attempted exactly when the commit fails with `InvalidRequestError`; the
session is closed exactly when the commit succeeds, or when it fails with
`InvalidRequestError` and the recovery rollback does not itself raise; on
every other failure path the exception escapes and the session is not
closed. -/
theorem c5_exit_amended (c : CommitOutcome) (rb : Bool) :
    (SafeSession.exit c rb).commit_attempted = true ∧
    ((SafeSession.exit c rb).rollback_attempted = true ↔
      c = CommitOutcome.invalidRequestError) ∧
    ((SafeSession.exit c rb).closed = true ↔
      (c = CommitOutcome.ok ∨ (c = CommitOutcome.invalidRequestError ∧ rb = false))) ∧
    ((SafeSession.exit c rb).exception_escaped = true ↔
      (SafeSession.exit c rb).closed = false) := by
  cases c <;> cases rb <;> decide

/-- Claim C8: a `get_size` call past the refresh interval (3 hours = 10800
seconds) recomputes, returns the fresh value and stores it together with the
current time; any later call within the interval of that stored time returns
the identical cached value without recomputing and leaves the state
untouched; a later call past the interval recomputes again and refreshes the
cache and its timestamp. -/
theorem c8_get_size_cache (st : SizeCacheState) (t1c t1s v1 : Int)
    (h1 : st.last_get_size_time + size_update_time < t1c) :
    DatabaseOperator.get_size t1c t1s v1 st =
      ⟨some v1, ⟨t1s, some v1⟩, true⟩ ∧
    size_update_time = 10800 ∧
    (∀ t2c t2s v2 : Int,
      (t2c ≤ t1s + size_update_time →
        DatabaseOperator.get_size t2c t2s v2 ⟨t1s, some v1⟩ =
          ⟨some v1, ⟨t1s, some v1⟩, false⟩) ∧
      (t1s + size_update_time < t2c →
        DatabaseOperator.get_size t2c t2s v2 ⟨t1s, some v1⟩ =
          ⟨some v2, ⟨t2s, some v2⟩, true⟩)) := by
  refine ⟨by simp [DatabaseOperator.get_size, h1], rfl, ?_⟩
  intro t2c t2s v2
  constructor
  · intro h2
    simp only [DatabaseOperator.get_size]
    rw [if_neg (not_lt.mpr h2)]
  · intro h2
    simp only [DatabaseOperator.get_size]
    rw [if_pos h2]

/-- Concrete instantiation of `c8_get_size_cache`: recomputation at time
20000 stored at 20005; a second call at 30805 = 20005 + 10800 still serves
the cache; a call at 30806 recomputes. -/
theorem c8_get_size_cache_witness :
    DatabaseOperator.get_size 20000 20005 7 ⟨0, none⟩ =
      ⟨some 7, ⟨20005, some 7⟩, true⟩ ∧
    DatabaseOperator.get_size 30805 1 5 ⟨20005, some 7⟩ =
      ⟨some 7, ⟨20005, some 7⟩, false⟩ ∧
    DatabaseOperator.get_size 30806 30807 5 ⟨20005, some 7⟩ =
      ⟨some 5, ⟨30807, some 5⟩, true⟩ := by
  obtain ⟨h1, _, h3⟩ := c8_get_size_cache ⟨0, none⟩ 20000 20005 7 (by decide)
  exact ⟨h1, (h3 30805 1 5).1 (by decide), (h3 30806 30807 5).2 (by decide)⟩

theorem times_values_map_fst (t : TableData) (dev : String)
    (b e : Option Int) :
    (times_values t dev b e).map Prod.fst =
      (CollectedDataOperator.get_query_according_to_times t dev b e).map
        Prod.fst := by
  unfold times_values
  rw [List.map_map]
  rfl

theorem mem_fst_query (t : TableData) (dev : String) (b e : Option Int)
    (τ : Int) :
    τ ∈ (CollectedDataOperator.get_query_according_to_times t dev b e).map
        Prod.fst ↔
      τ ∈ timesOf t ∧ timeFilter b e τ = true := by
  unfold CollectedDataOperator.get_query_according_to_times timesOf
  rw [List.map_map]
  constructor
  · intro h
    rcases List.mem_map.mp h with ⟨row, hrow, heq⟩
    rcases List.mem_filter.mp hrow with ⟨hs, hf⟩
    have hr : row ∈ t.rows :=
      (List.perm_insertionSort timeDesc t.rows).mem_iff.mp hs
    have heq' : rowTimeInt row = τ := heq
    subst heq'
    exact ⟨List.mem_map_of_mem _ hr, hf⟩
  · rintro ⟨hmem, hf⟩
    rcases List.mem_map.mp hmem with ⟨row, hr, heq⟩
    subst heq
    refine List.mem_map.mpr ⟨row, ?_, rfl⟩
    exact List.mem_filter.mpr
      ⟨(List.perm_insertionSort timeDesc t.rows).mem_iff.mpr hr, hf⟩

theorem query_pairwise_desc (t : TableData) (dev : String)
    (b e : Option Int) :
    (CollectedDataOperator.get_query_according_to_times t dev b e).Pairwise
      (fun p q => q.1 ≤ p.1) := by
  unfold CollectedDataOperator.get_query_according_to_times
  refine List.Pairwise.map _ (fun a b hab => hab) ?_
  exact List.Pairwise.sublist (List.filter_sublist _)
    (List.sorted_insertionSort timeDesc t.rows)

theorem times_values_pairwise_desc (t : TableData) (dev : String)
    (b e : Option Int) :
    (times_values t dev b e).Pairwise (fun p q => q.1 ≤ p.1) := by
  unfold times_values
  exact List.Pairwise.map _ (fun a b hab => hab) (query_pairwise_desc t dev b e)

/-- Claim C2: for a stored table, `get_times_values` returns (descending by
time) exactly the rows passing the range filter: both bounds given (nonzero)
keeps `begin <= time <= end`; only a lower bound keeps `time >= begin`; only
an upper bound keeps `time <= end`; neither bound keeps every row. -/
theorem c2_range_filter_policy (db : DB) (dev pname : String) (t : TableData)
    (hdb : lookupA pname db = some t) (hdev : dev ∈ t.columns.map Prod.fst) :
    (∀ b e : Option Int,
      CollectedDataOperator.get_times_values db dev pname b e =
        Except.ok (times_values t dev b e)) ∧
    (∀ b e : Option Int,
      (times_values t dev b e).Pairwise (fun p q => q.1 ≤ p.1)) ∧
    (∀ bv ev τ : Int, bv ≠ 0 → ev ≠ 0 →
      (τ ∈ (times_values t dev (some bv) (some ev)).map Prod.fst ↔
        τ ∈ timesOf t ∧ (bv ≤ τ ∧ τ ≤ ev))) ∧
    (∀ bv τ : Int, bv ≠ 0 →
      (τ ∈ (times_values t dev (some bv) none).map Prod.fst ↔
        τ ∈ timesOf t ∧ bv ≤ τ)) ∧
    (∀ ev τ : Int, ev ≠ 0 →
      (τ ∈ (times_values t dev none (some ev)).map Prod.fst ↔
        τ ∈ timesOf t ∧ τ ≤ ev)) ∧
    (∀ τ : Int,
      τ ∈ (times_values t dev none none).map Prod.fst ↔ τ ∈ timesOf t) := by
  refine ⟨?_, fun b e => times_values_pairwise_desc t dev b e,
    ?_, ?_, ?_, ?_⟩
  · intro b e
    unfold CollectedDataOperator.get_times_values
    rw [hdb]
    simp [hdev]
  · intro bv ev τ hbv hev
    rw [times_values_map_fst, mem_fst_query]
    simp [timeFilter, truthy, hbv, hev]
  · intro bv τ hbv
    rw [times_values_map_fst, mem_fst_query]
    simp [timeFilter, truthy, hbv]
  · intro ev τ hev
    rw [times_values_map_fst, mem_fst_query]
    simp [timeFilter, truthy, hev]
  · intro τ
    rw [times_values_map_fst, mem_fst_query]
    simp [timeFilter, truthy]

theorem timeFilter_zero_begin (e : Option Int) (τ : Int) :
    timeFilter (some 0) e τ = timeFilter none e τ := by
  simp [timeFilter, truthy]

theorem timeFilter_zero_end (b : Option Int) (τ : Int) :
    timeFilter b (some 0) τ = timeFilter b none τ := by
  simp [timeFilter, truthy]

theorem timeFilter_none_none (τ : Int) : timeFilter none none τ = true := rfl

theorem times_values_zero_begin (t : TableData) (dev : String)
    (e : Option Int) :
    times_values t dev (some 0) e = times_values t dev none e := by
  unfold times_values CollectedDataOperator.get_query_according_to_times
  rw [List.filter_congr (fun row _ => timeFilter_zero_begin e (rowTimeInt row))]

theorem times_values_zero_end (t : TableData) (dev : String)
    (b : Option Int) :
    times_values t dev b (some 0) = times_values t dev b none := by
  unfold times_values CollectedDataOperator.get_query_according_to_times
  rw [List.filter_congr (fun row _ => timeFilter_zero_end b (rowTimeInt row))]

theorem times_values_none_none_length (t : TableData) (dev : String) :
    (times_values t dev none none).length = t.rows.length := by
  unfold times_values CollectedDataOperator.get_query_according_to_times
  rw [List.length_map, List.length_map,
    show (fun row => timeFilter none none (rowTimeInt row)) =
        (fun _ : Rec => true) from
      funext (fun row => timeFilter_none_none (rowTimeInt row)),
    List.filter_true, List.length_insertionSort]

/-- Claim C9: a bound equal to `0` is falsy in the Python guards, so
`get_times_values` treats it as absent: `begin_time = 0` with a nonzero
`end_time` filters only by `time <= end_time`, and two zero bounds apply no
filter at all, returning every row of the table. -/
theorem c9_falsy_zero_bounds (t : TableData) (dev : String) :
    (∀ ev : Int, ev ≠ 0 →
      times_values t dev (some 0) (some ev) =
        times_values t dev none (some ev)) ∧
    (∀ ev τ : Int, ev ≠ 0 →
      (τ ∈ (times_values t dev (some 0) (some ev)).map Prod.fst ↔
        τ ∈ timesOf t ∧ τ ≤ ev)) ∧
    times_values t dev (some 0) (some 0) = times_values t dev none none ∧
    (times_values t dev (some 0) (some 0)).length = t.rows.length := by
  have hzz : times_values t dev (some 0) (some 0) =
      times_values t dev none none := by
    rw [times_values_zero_begin, times_values_zero_end]
  refine ⟨fun ev _ => times_values_zero_begin t dev (some ev), ?_, hzz, ?_⟩
  · intro ev τ hev
    rw [times_values_zero_begin, times_values_map_fst, mem_fst_query]
    simp [timeFilter, truthy, hev]
  · rw [hzz, times_values_none_none_length]

/-- Instantiation of `c9_falsy_zero_bounds` on a three-row table: the
`(0, 25)` bounds behave like `(None, 25)` and the `(0, 0)` bounds return the
whole table. -/
theorem c9_falsy_zero_bounds_witness :
    times_values
        ⟨[("time", ColType.tInteger), ("d", ColType.tFloat)],
          [[("time", Value.vint 10), ("d", Value.vdec 1)],
           [("time", Value.vint 20), ("d", Value.vdec 2)],
           [("time", Value.vint 30), ("d", Value.vdec 3)]]⟩
        "d" (some 0) (some 25) =
      times_values
        ⟨[("time", ColType.tInteger), ("d", ColType.tFloat)],
          [[("time", Value.vint 10), ("d", Value.vdec 1)],
           [("time", Value.vint 20), ("d", Value.vdec 2)],
           [("time", Value.vint 30), ("d", Value.vdec 3)]]⟩
        "d" none (some 25) ∧
    (20 ∈ (times_values
        ⟨[("time", ColType.tInteger), ("d", ColType.tFloat)],
          [[("time", Value.vint 10), ("d", Value.vdec 1)],
           [("time", Value.vint 20), ("d", Value.vdec 2)],
           [("time", Value.vint 30), ("d", Value.vdec 3)]]⟩
        "d" (some 0) (some 25)).map Prod.fst ↔
      20 ∈ timesOf
        ⟨[("time", ColType.tInteger), ("d", ColType.tFloat)],
          [[("time", Value.vint 10), ("d", Value.vdec 1)],
           [("time", Value.vint 20), ("d", Value.vdec 2)],
           [("time", Value.vint 30), ("d", Value.vdec 3)]]⟩ ∧
        (20 : Int) ≤ 25) := by
  obtain ⟨h1, h2, _, _⟩ := c9_falsy_zero_bounds
    ⟨[("time", ColType.tInteger), ("d", ColType.tFloat)],
      [[("time", Value.vint 10), ("d", Value.vdec 1)],
       [("time", Value.vint 20), ("d", Value.vdec 2)],
       [("time", Value.vint 30), ("d", Value.vdec 3)]]⟩ "d"
  exact ⟨h1 25 (by decide), h2 25 20 (by decide)⟩

/-- Claim C7: reading a parameter that has no backing table raises
`NoSuchTableError` (surfaced, not an empty result) from `get_times_values`,
`get_last_data` and `get_time_interval` alike. -/
theorem c7_missing_table_raises (db : DB) (device_name parameter_name : String)
    (b e : Option Int) (limit : Nat)
    (h : lookupA parameter_name db = none) :
    CollectedDataOperator.get_times_values db device_name parameter_name b e =
      Except.error DbError.noSuchTableError ∧
    CollectedDataOperator.get_last_data db device_name parameter_name limit =
      Except.error DbError.noSuchTableError ∧
    CollectedDataOperator.get_time_interval db parameter_name =
      Except.error DbError.noSuchTableError := by
  unfold CollectedDataOperator.get_times_values
    CollectedDataOperator.get_last_data
    CollectedDataOperator.get_time_interval
  rw [h]
  exact ⟨rfl, rfl, rfl⟩

/-- Instantiation of `c7_missing_table_raises` on the empty database. -/
theorem c7_missing_table_witness :
    CollectedDataOperator.get_times_values [] "dev01" "CpuTemp1" none none =
      Except.error DbError.noSuchTableError ∧
    CollectedDataOperator.get_last_data [] "dev01" "CpuTemp1" 1 =
      Except.error DbError.noSuchTableError ∧
    CollectedDataOperator.get_time_interval [] "CpuTemp1" =
      Except.error DbError.noSuchTableError :=
  c7_missing_table_raises [] "dev01" "CpuTemp1" none none 1 rfl

/-- Claim C10: on an existing but empty parameter table,
`get_time_interval` hits the unconditional `row_list[0]` / `row_list[-1]`
indexing and raises `IndexError` instead of returning a sentinel. -/
theorem c10_empty_table_index_error (db : DB) (table_name : String)
    (t : TableData) (hdb : lookupA table_name db = some t)
    (hrows : t.rows = []) :
    CollectedDataOperator.get_time_interval db table_name =
      Except.error DbError.indexError := by
  unfold CollectedDataOperator.get_time_interval
  rw [hdb]
  show (match (List.insertionSort timeAsc t.rows).head?,
      (List.insertionSort timeAsc t.rows).getLast? with
    | some r0, some r1 => Except.ok (rowTimeInt r0, rowTimeInt r1)
    | _, _ => Except.error DbError.indexError) =
    Except.error DbError.indexError
  rw [hrows]
  rfl

/-- Instantiation of `c10_empty_table_index_error` on a one-table database
whose table holds no rows. -/
theorem c10_empty_table_witness :
    CollectedDataOperator.get_time_interval
      [("CpuTemp1", ⟨[("time", ColType.tInteger)], []⟩)] "CpuTemp1" =
      Except.error DbError.indexError :=
  c10_empty_table_index_error
    [("CpuTemp1", ⟨[("time", ColType.tInteger)], []⟩)] "CpuTemp1"
    ⟨[("time", ColType.tInteger)], []⟩ rfl rfl

/-- Instantiation of `c2_range_filter_policy` on a three-row table with
bounds `(15, 25)`: only the row at time 20 passes the inclusive filter. -/
theorem c2_range_filter_policy_witness :
    CollectedDataOperator.get_times_values sampleDB "d" "p" (some 15) (some 25) =
      Except.ok (times_values sampleTable "d" (some 15) (some 25)) ∧
    (20 ∈ (times_values sampleTable "d" (some 15) (some 25)).map Prod.fst ↔
      20 ∈ timesOf sampleTable ∧ ((15 : Int) ≤ 20 ∧ (20 : Int) ≤ 25)) := by
  have h := c2_range_filter_policy sampleDB "d" "p" sampleTable rfl (by decide)
  exact ⟨h.1 (some 15) (some 25), h.2.2.1 15 25 20 (by decide) (by decide)⟩

theorem pairwise_head_le (r : Rec) (rs : List Rec)
    (hs : (r :: rs).Pairwise timeAsc) :
    ∀ x ∈ r :: rs, rowTimeInt r ≤ rowTimeInt x := by
  intro x hx
  rcases List.mem_cons.mp hx with rfl | hx'
  · exact le_refl _
  · exact List.rel_of_pairwise_cons hs hx'

theorem pairwise_le_getLast? :
    ∀ (l : List Rec), l.Pairwise timeAsc → ∀ g, l.getLast? = some g →
      ∀ x ∈ l, rowTimeInt x ≤ rowTimeInt g
  | [], _, _, _, _, hx => by cases hx
  | [a], _, g, hg, x, hx => by
      have hag : a = g := by
        rw [List.getLast?_singleton] at hg
        exact Option.some.inj hg
      rcases List.mem_singleton.mp hx with rfl
      exact le_of_eq (congrArg rowTimeInt hag)
  | a :: b :: l, hs, g, hg, x, hx => by
      rw [List.getLast?_cons_cons] at hg
      rcases List.mem_cons.mp hx with rfl | hx'
      · have hgm : g ∈ b :: l := List.mem_of_mem_getLast? hg
        exact List.rel_of_pairwise_cons hs hgm
      · exact pairwise_le_getLast? (b :: l) hs.of_cons g hg x hx'

/-- Claim C4: on a nonempty parameter table, `get_time_interval` returns the
pair of the first and last timestamps of the ascending ordering, i.e. the
earliest and the latest time over all rows of the table. -/
theorem c4_time_interval_bounds (db : DB) (pname : String) (t : TableData)
    (hdb : lookupA pname db = some t) (hne : t.rows ≠ []) :
    ∃ a b : Int,
      CollectedDataOperator.get_time_interval db pname = Except.ok (a, b) ∧
      a ∈ timesOf t ∧ b ∈ timesOf t ∧
      ∀ τ ∈ timesOf t, a ≤ τ ∧ τ ≤ b := by
  unfold CollectedDataOperator.get_time_interval
  rw [hdb]
  show ∃ a b : Int,
    (match (List.insertionSort timeAsc t.rows).head?,
        (List.insertionSort timeAsc t.rows).getLast? with
      | some r0, some r1 => Except.ok (rowTimeInt r0, rowTimeInt r1)
      | _, _ => Except.error DbError.indexError) = Except.ok (a, b) ∧
    a ∈ timesOf t ∧ b ∈ timesOf t ∧ ∀ τ ∈ timesOf t, a ≤ τ ∧ τ ≤ b
  have hperm := List.perm_insertionSort timeAsc t.rows
  have hsorted : (List.insertionSort timeAsc t.rows).Pairwise timeAsc :=
    List.sorted_insertionSort timeAsc t.rows
  rcases hsort_eq : List.insertionSort timeAsc t.rows with _ | ⟨r0, rs⟩
  · exfalso
    rw [hsort_eq] at hperm
    exact hne hperm.symm.eq_nil
  · rw [hsort_eq] at hperm hsorted
    have hlast : (r0 :: rs).getLast? =
        some ((r0 :: rs).getLast (List.cons_ne_nil r0 rs)) :=
      List.getLast?_eq_getLast _ _
    rw [List.head?_cons, hlast]
    refine ⟨rowTimeInt r0,
      rowTimeInt ((r0 :: rs).getLast (List.cons_ne_nil r0 rs)), rfl, ?_, ?_, ?_⟩
    · exact List.mem_map_of_mem _ (hperm.mem_iff.mp (List.mem_cons_self r0 rs))
    · exact List.mem_map_of_mem _
        (hperm.mem_iff.mp (List.getLast_mem (List.cons_ne_nil r0 rs)))
    · intro τ hτ
      rcases List.mem_map.mp hτ with ⟨row, hrow, rfl⟩
      have hmem : row ∈ r0 :: rs := hperm.mem_iff.mpr hrow
      exact ⟨pairwise_head_le r0 rs hsorted row hmem,
        pairwise_le_getLast? (r0 :: rs) hsorted _ hlast row hmem⟩

/-- Instantiation of `c4_time_interval_bounds`: a table built by two upserts
at times 100 and 120 (the spec's `T` and `T + 20`) yields the interval
`(100, 120)`. -/
theorem c4_time_interval_witness :
    CollectedDataOperator.get_time_interval savedTwiceDB "CpuTemp2" =
      Except.ok (100, 120) := by
  obtain ⟨a, b, heq, ha, hb, hbd⟩ :=
    c4_time_interval_bounds savedTwiceDB "CpuTemp2" savedTwiceTable rfl
      (by decide)
  have htimes : timesOf savedTwiceTable = [100, 120] := by decide
  rw [htimes] at ha hb
  have h100 := hbd 100 (by rw [htimes]; decide)
  have h120 := hbd 120 (by rw [htimes]; decide)
  have ha' : a = 100 := by
    have hle := h100.1
    rcases (by simpa using ha : a = 100 ∨ a = 120) with h | h
    · exact h
    · omega
  have hb' : b = 120 := by
    have hle := h120.2
    rcases (by simpa using hb : b = 100 ∨ b = 120) with h | h
    · omega
    · exact h
  rw [ha', hb'] at heq
  exact heq

theorem lookupA_updateRow (rec : Rec) :
    (rec.map Prod.fst).Nodup →
    ∀ (row : Rec) (k : String),
      lookupA k (updateRow row rec) =
        match lookupA k rec with
        | some v => some v
        | none => lookupA k row := by
  induction rec with
  | nil => intro _ row k; rfl
  | cons kv rest ih =>
    intro hnd row k
    have hnd0 := hnd
    simp only [List.map_cons, List.nodup_cons] at hnd0
    have hstep : updateRow row (kv :: rest) =
        updateRow (dictSet row kv.1 kv.2) rest := rfl
    rw [hstep, ih hnd0.2 (dictSet row kv.1 kv.2) k]
    by_cases hk : kv.1 = k
    · subst hk
      have hnone : lookupA kv.1 rest = none :=
        (lookupA_eq_none_iff _ _).mpr hnd0.1
      rw [hnone]
      simp [lookupA, lookupA_dictSet]
    · rcases hr : lookupA k rest with _ | v
      · rw [lookupA_dictSet]
        have hk' : ¬ k = kv.1 := fun hc => hk hc.symm
        simp [lookupA, hk, hk', hr]
      · simp [lookupA, hk, hr]

theorem rowTime_updateRow (row : Rec) (rec : Rec) (τ : Int)
    (hrec : rowTime rec = some (Value.vint τ))
    (hnd : (rec.map Prod.fst).Nodup) :
    rowTime (updateRow row rec) = some (Value.vint τ) := by
  unfold rowTime at *
  rw [lookupA_updateRow rec hnd row "time", hrec]

theorem rowTimeInt_of_rowTime (row : Rec) (τ : Int)
    (h : rowTime row = some (Value.vint τ)) : rowTimeInt row = τ := by
  unfold rowTimeInt
  rw [h]

theorem insert_cond_iff (t : TableData) (rec : Rec) (τ : Int)
    (hit : intTimed t) (hrec : rowTime rec = some (Value.vint τ)) :
    (t.rows.any (fun row => decide (rowTime row = rowTime rec)) = true) ↔
      τ ∈ timesOf t := by
  rw [List.any_eq_true]
  constructor
  · rintro ⟨row, hrow, hdec⟩
    have heq : rowTime row = rowTime rec := of_decide_eq_true hdec
    have hτ : rowTimeInt row = τ :=
      rowTimeInt_of_rowTime row τ (heq.trans hrec)
    exact hτ ▸ List.mem_map_of_mem _ hrow
  · intro hτ
    rcases List.mem_map.mp hτ with ⟨row, hrow, rfl⟩
    refine ⟨row, hrow, decide_eq_true ?_⟩
    rw [hit row hrow, hrec]

theorem insert_in_session_rows (t : TableData) (rec : Rec) (τ : Int)
    (hit : intTimed t) (hrec : rowTime rec = some (Value.vint τ)) :
    (DatabaseOperator.insert_in_session t rec).rows =
      if τ ∈ timesOf t then
        t.rows.map (fun row =>
          if rowTime row = rowTime rec then updateRow row rec else row)
      else t.rows ++ [rec] := by
  unfold DatabaseOperator.insert_in_session
  by_cases hmem : τ ∈ timesOf t
  · rw [if_pos ((insert_cond_iff t rec τ hit hrec).mpr hmem), if_pos hmem]
  · rw [if_neg (fun hc => hmem ((insert_cond_iff t rec τ hit hrec).mp hc)),
      if_neg hmem]

theorem rowTimeInt_upd (rec : Rec) (τ : Int)
    (hrec : rowTime rec = some (Value.vint τ))
    (hnd : (rec.map Prod.fst).Nodup) (row : Rec) :
    rowTimeInt (if rowTime row = rowTime rec then updateRow row rec else row) =
      rowTimeInt row := by
  by_cases h : rowTime row = rowTime rec
  · rw [if_pos h,
      rowTimeInt_of_rowTime _ τ (rowTime_updateRow row rec τ hrec hnd),
      rowTimeInt_of_rowTime row τ (h.trans hrec)]
  · rw [if_neg h]

theorem insert_in_session_timesOf (t : TableData) (rec : Rec) (τ : Int)
    (hit : intTimed t) (hrec : rowTime rec = some (Value.vint τ))
    (hnd : (rec.map Prod.fst).Nodup) :
    timesOf (DatabaseOperator.insert_in_session t rec) =
      if τ ∈ timesOf t then timesOf t else timesOf t ++ [τ] := by
  have hfold : timesOf (DatabaseOperator.insert_in_session t rec) =
      List.map rowTimeInt (DatabaseOperator.insert_in_session t rec).rows := rfl
  have hrows := insert_in_session_rows t rec τ hit hrec
  by_cases hmem : τ ∈ timesOf t
  · rw [if_pos hmem, hfold, hrows, if_pos hmem, List.map_map]
    exact List.map_congr_left
      (fun row _ => rowTimeInt_upd rec τ hrec hnd row)
  · rw [if_neg hmem, hfold, hrows, if_neg hmem, List.map_append]
    have hτ : rowTimeInt rec = τ := rowTimeInt_of_rowTime rec τ hrec
    show List.map rowTimeInt t.rows ++ List.map rowTimeInt [rec] =
      timesOf t ++ [τ]
    rw [show List.map rowTimeInt [rec] = [τ] by simp [hτ]]
    rfl

theorem insert_in_session_wf (t : TableData) (rec : Rec) (τ : Int)
    (hwf : wfTable t) (hrec : rowTime rec = some (Value.vint τ))
    (hnd : (rec.map Prod.fst).Nodup) :
    wfTable (DatabaseOperator.insert_in_session t rec) := by
  obtain ⟨hit, hnodup⟩ := hwf
  constructor
  · intro row hrow
    rw [insert_in_session_rows t rec τ hit hrec] at hrow
    by_cases hmem : τ ∈ timesOf t
    · rw [if_pos hmem] at hrow
      rcases List.mem_map.mp hrow with ⟨row', hrow', rfl⟩
      by_cases hcond : rowTime row' = rowTime rec
      · rw [if_pos hcond]
        have h1 : rowTime (updateRow row' rec) = some (Value.vint τ) :=
          rowTime_updateRow row' rec τ hrec hnd
        rw [h1, rowTimeInt_of_rowTime _ τ h1]
      · rw [if_neg hcond]
        exact hit row' hrow'
    · rw [if_neg hmem] at hrow
      rcases List.mem_append.mp hrow with h | h
      · exact hit row h
      · rcases List.mem_singleton.mp h with rfl
        rw [hrec, rowTimeInt_of_rowTime row τ hrec]
  · rw [show timesOf (DatabaseOperator.insert_in_session t rec) =
        if τ ∈ timesOf t then timesOf t else timesOf t ++ [τ] from
      insert_in_session_timesOf t rec τ hit hrec hnd]
    by_cases hmem : τ ∈ timesOf t
    · rw [if_pos hmem]
      exact hnodup
    · rw [if_neg hmem]
      exact List.Nodup.append hnodup (List.nodup_singleton τ)
        (by simpa using hmem)

theorem findRow_cons (τ : Int) (row : Rec) (rows : List Rec) :
    findRow τ (row :: rows) =
      if rowTime row = some (Value.vint τ) then some row
      else findRow τ rows := rfl

theorem findRow_eq_some (τ : Int) :
    ∀ (rows : List Rec) (row₀ : Rec), findRow τ rows = some row₀ →
      rowTime row₀ = some (Value.vint τ) ∧ row₀ ∈ rows
  | [], _, h => by cases h
  | r :: rs, row₀, h => by
      rw [findRow_cons] at h
      by_cases hp : rowTime r = some (Value.vint τ)
      · rw [if_pos hp] at h
        cases Option.some.inj h
        exact ⟨hp, List.mem_cons_self r rs⟩
      · rw [if_neg hp] at h
        obtain ⟨h1, h2⟩ := findRow_eq_some τ rs row₀ h
        exact ⟨h1, List.mem_cons_of_mem r h2⟩

theorem findRow_isSome (τ : Int) :
    ∀ (rows : List Rec) (row : Rec), row ∈ rows →
      rowTime row = some (Value.vint τ) →
      ∃ row₀, findRow τ rows = some row₀
  | [], _, hmem, _ => by cases hmem
  | r :: rs, row, hmem, hrt => by
      rw [findRow_cons]
      by_cases hp : rowTime r = some (Value.vint τ)
      · exact ⟨r, by rw [if_pos hp]⟩
      · rcases List.mem_cons.mp hmem with rfl | hmem'
        · exact absurd hrt hp
        · obtain ⟨row₀, h0⟩ := findRow_isSome τ rs row hmem' hrt
          exact ⟨row₀, by rw [if_neg hp]; exact h0⟩

theorem findRow_map_upd (rec : Rec) (τ : Int)
    (hrec : rowTime rec = some (Value.vint τ))
    (hnd : (rec.map Prod.fst).Nodup) :
    ∀ (rows : List Rec) (row₀ : Rec),
      findRow τ rows = some row₀ →
      findRow τ (rows.map (fun row =>
          if rowTime row = rowTime rec then updateRow row rec else row)) =
        some (updateRow row₀ rec)
  | [], _, h => by cases h
  | r :: rs, row₀, h => by
      rw [findRow_cons] at h
      by_cases hp : rowTime r = some (Value.vint τ)
      · rw [if_pos hp] at h
        cases Option.some.inj h
        rw [List.map_cons, if_pos (hp.trans hrec.symm), findRow_cons,
          if_pos (rowTime_updateRow r rec τ hrec hnd)]
      · rw [if_neg hp] at h
        rw [List.map_cons, if_neg (fun hc => hp (hc.trans hrec)), findRow_cons,
          if_neg hp]
        exact findRow_map_upd rec τ hrec hnd rs row₀ h

theorem countRows_filter_length (τ : Int) :
    ∀ (rows : List Rec),
      (∀ row ∈ rows, rowTime row = some (Value.vint (rowTimeInt row))) →
      (rows.map rowTimeInt).Nodup → τ ∈ rows.map rowTimeInt →
      (rows.filter
        (fun row => decide (rowTime row = some (Value.vint τ)))).length = 1
  | [], _, _, hmem => by cases hmem
  | r :: rs, hit, hnd, hmem => by
      have hitr := hit r (List.mem_cons_self r rs)
      have hit' : ∀ row ∈ rs,
          rowTime row = some (Value.vint (rowTimeInt row)) :=
        fun row hrow => hit row (List.mem_cons_of_mem r hrow)
      simp only [List.map_cons, List.nodup_cons] at hnd
      by_cases hr : rowTimeInt r = τ
      · rw [List.filter_cons_of_pos (by rw [decide_eq_true_iff, hitr, hr])]
        have hnone : (rs.filter
            (fun row => decide (rowTime row = some (Value.vint τ)))) = [] := by
          rw [List.filter_eq_nil_iff]
          intro row hrow hdec
          have hrow_t : rowTimeInt row = τ :=
            rowTimeInt_of_rowTime row τ (of_decide_eq_true hdec)
          exact hnd.1 (hr ▸ hrow_t ▸ List.mem_map_of_mem rowTimeInt hrow)
        rw [hnone]
        rfl
      · rw [List.filter_cons_of_neg (by
          rw [decide_eq_true_iff, hitr]
          intro hc
          exact hr (Value.vint.inj (Option.some.inj hc)))]
        refine countRows_filter_length τ rs hit' hnd.2 ?_
        rcases List.mem_cons.mp hmem with h | h
        · exact absurd h.symm hr
        · exact h

theorem countRowsWithTime_eq_one (t : TableData) (τ : Int)
    (hwf : wfTable t) (hmem : τ ∈ timesOf t) :
    countRowsWithTime t τ = 1 :=
  countRows_filter_length τ t.rows hwf.1 hwf.2 hmem

theorem findRowByTime_isSome (t : TableData) (τ : Int)
    (hit : intTimed t) (hmem : τ ∈ timesOf t) :
    ∃ row, findRowByTime t τ = some row := by
  rcases List.mem_map.mp hmem with ⟨row, hrow, rfl⟩
  exact findRow_isSome (rowTimeInt row) t.rows row hrow (hit row hrow)

theorem mem_times_of_find (t : TableData) (τ : Int) (row₀ : Rec)
    (h : findRowByTime t τ = some row₀) :
    τ ∈ timesOf t ∧ rowTime row₀ = some (Value.vint τ) ∧ row₀ ∈ t.rows := by
  obtain ⟨h1, h2⟩ := findRow_eq_some τ t.rows row₀ h
  exact ⟨rowTimeInt_of_rowTime row₀ τ h1 ▸ List.mem_map_of_mem _ h2, h1, h2⟩

/-- Claim C1: `_insert_in_session` is an upsert keyed by `time` on a
well-formed table: a record whose `time` is not yet stored is appended as a
new row; a record whose `time` is already stored updates that row's columns
in place (columns named in the record take its values, all other cells are
kept) leaving every other row untouched; and two successive writes at the
same `time` leave exactly one row at that `time`, carrying the second
write's values. -/
theorem c1_upsert_keyed_by_time (t : TableData) (rec1 rec2 : Rec) (τ : Int)
    (hwf : wfTable t)
    (h1 : rowTime rec1 = some (Value.vint τ))
    (h2 : rowTime rec2 = some (Value.vint τ))
    (hnd1 : (rec1.map Prod.fst).Nodup)
    (hnd2 : (rec2.map Prod.fst).Nodup) :
    (τ ∉ timesOf t →
      (DatabaseOperator.insert_in_session t rec1).rows = t.rows ++ [rec1]) ∧
    (∀ row₀, findRowByTime t τ = some row₀ →
      findRowByTime (DatabaseOperator.insert_in_session t rec1) τ =
        some (updateRow row₀ rec1) ∧
      (∀ k, lookupA k (updateRow row₀ rec1) =
        match lookupA k rec1 with
        | some v => some v
        | none => lookupA k row₀) ∧
      (DatabaseOperator.insert_in_session t rec1).rows.length =
        t.rows.length ∧
      (∀ row ∈ t.rows, rowTimeInt row ≠ τ →
        row ∈ (DatabaseOperator.insert_in_session t rec1).rows)) ∧
    (countRowsWithTime
        (DatabaseOperator.insert_in_session
          (DatabaseOperator.insert_in_session t rec1) rec2) τ = 1 ∧
      ∀ row, findRowByTime
          (DatabaseOperator.insert_in_session
            (DatabaseOperator.insert_in_session t rec1) rec2) τ = some row →
        ∀ k v, lookupA k rec2 = some v → lookupA k row = some v) := by
  obtain ⟨hit, hnodup⟩ := hwf
  have hwf1 : wfTable (DatabaseOperator.insert_in_session t rec1) :=
    insert_in_session_wf t rec1 τ ⟨hit, hnodup⟩ h1 hnd1
  refine ⟨?_, ?_, ?_⟩
  · intro hmem
    rw [insert_in_session_rows t rec1 τ hit h1, if_neg hmem]
  · intro row₀ hfind
    obtain ⟨hmem, hrt0, hmem0⟩ := mem_times_of_find t τ row₀ hfind
    refine ⟨?_, fun k => lookupA_updateRow rec1 hnd1 row₀ k, ?_, ?_⟩
    · unfold findRowByTime at *
      rw [insert_in_session_rows t rec1 τ hit h1, if_pos hmem]
      exact findRow_map_upd rec1 τ h1 hnd1 t.rows row₀ hfind
    · rw [insert_in_session_rows t rec1 τ hit h1, if_pos hmem,
        List.length_map]
    · intro row hrow hne
      rw [insert_in_session_rows t rec1 τ hit h1, if_pos hmem]
      have hup : (if rowTime row = rowTime rec1 then updateRow row rec1
          else row) = row := by
        have hcond : ¬ (rowTime row = rowTime rec1) := by
          intro hc
          exact hne (rowTimeInt_of_rowTime row τ (hc.trans h1))
        rw [if_neg hcond]
      exact hup ▸ List.mem_map_of_mem _ hrow
  · have hmem1 : τ ∈ timesOf (DatabaseOperator.insert_in_session t rec1) := by
      rw [insert_in_session_timesOf t rec1 τ hit h1 hnd1]
      by_cases hmem : τ ∈ timesOf t
      · rw [if_pos hmem]
        exact hmem
      · rw [if_neg hmem]
        exact List.mem_append.mpr (Or.inr (List.mem_singleton.mpr rfl))
    have hwf2 : wfTable (DatabaseOperator.insert_in_session
        (DatabaseOperator.insert_in_session t rec1) rec2) :=
      insert_in_session_wf _ rec2 τ hwf1 h2 hnd2
    have hmem2 : τ ∈ timesOf (DatabaseOperator.insert_in_session
        (DatabaseOperator.insert_in_session t rec1) rec2) := by
      rw [insert_in_session_timesOf _ rec2 τ hwf1.1 h2 hnd2, if_pos hmem1]
      exact hmem1
    refine ⟨countRowsWithTime_eq_one _ τ hwf2 hmem2, ?_⟩
    intro row hrow_find k v hv
    obtain ⟨row₁, hfind1⟩ :=
      findRowByTime_isSome (DatabaseOperator.insert_in_session t rec1) τ
        hwf1.1 hmem1
    have hfind2 : findRowByTime (DatabaseOperator.insert_in_session
        (DatabaseOperator.insert_in_session t rec1) rec2) τ =
        some (updateRow row₁ rec2) := by
      unfold findRowByTime at *
      rw [insert_in_session_rows _ rec2 τ hwf1.1 h2, if_pos hmem1]
      exact findRow_map_upd rec2 τ h2 hnd2 _ row₁ hfind1
    rw [hfind2] at hrow_find
    cases Option.some.inj hrow_find
    rw [lookupA_updateRow rec2 hnd2 row₁ k, hv]

/-- Instantiation of `c1_upsert_keyed_by_time`: two successive writes at
the already-stored time 20 of the fixture table leave exactly one row at
time 20, and that row carries the second write's value for device `d`. -/
theorem c1_upsert_witness :
    countRowsWithTime
        (DatabaseOperator.insert_in_session
          (DatabaseOperator.insert_in_session sampleTable recAt20)
          recAt20') 20 = 1 ∧
    lookupA "d" [("time", Value.vint 20), ("d", Value.vdec 7)] =
      some (Value.vdec 7) := by
  obtain ⟨-, -, hc⟩ := c1_upsert_keyed_by_time sampleTable recAt20 recAt20' 20
    (by decide) (by decide) (by decide) (by decide) (by decide)
  exact ⟨hc.1, hc.2 [("time", Value.vint 20), ("d", Value.vdec 7)]
    (by decide) "d" (Value.vdec 7) (by decide)⟩

theorem alterGo_cons (t : TableData) (existing : List String)
    (type_ : ColType) (c : String) (cs : List String) :
    alterGo t existing type_ (c :: cs) =
      if c ∈ existing then alterGo t existing type_ cs
      else if c ∈ t.columns.map Prod.fst then (t, true)
      else alterGo { t with columns := t.columns ++ [(c, type_)] }
        existing type_ cs := rfl

theorem alterGo_spec (existing : List String) (type_ : ColType) :
    ∀ (cns : List String) (t : TableData),
      ∃ delta,
        (alterGo t existing type_ cns).1.columns = t.columns ++ delta ∧
        (alterGo t existing type_ cns).1.rows = t.rows ∧
        ∀ cc ∈ delta, cc.2 = type_ ∧ cc.1 ∈ cns ∧ cc.1 ∉ existing := by
  intro cns
  induction cns with
  | nil =>
    intro t
    exact ⟨[], by simp [alterGo], by simp [alterGo], by simp⟩
  | cons c cs ih =>
    intro t
    by_cases hex : c ∈ existing
    · obtain ⟨delta, hcol, hrows, hprop⟩ := ih t
      rw [alterGo_cons, if_pos hex]
      exact ⟨delta, hcol, hrows, fun cc hc =>
        ⟨(hprop cc hc).1, List.mem_cons_of_mem c (hprop cc hc).2.1,
          (hprop cc hc).2.2⟩⟩
    · by_cases hdup : c ∈ t.columns.map Prod.fst
      · rw [alterGo_cons, if_neg hex, if_pos hdup]
        exact ⟨[], by simp, rfl, by simp⟩
      · obtain ⟨delta, hcol, hrows, hprop⟩ :=
          ih { t with columns := t.columns ++ [(c, type_)] }
        rw [alterGo_cons, if_neg hex, if_neg hdup]
        refine ⟨(c, type_) :: delta, ?_, hrows, ?_⟩
        · rw [hcol]
          simp
        · intro cc hc
          rcases List.mem_cons.mp hc with rfl | hc'
          · exact ⟨rfl, List.mem_cons_self c cs, hex⟩
          · exact ⟨(hprop cc hc').1, List.mem_cons_of_mem c (hprop cc hc').2.1,
              (hprop cc hc').2.2⟩

theorem alterGo_nodup (existing : List String) (type_ : ColType) :
    ∀ (cns : List String) (t : TableData),
      cns.Nodup →
      (∀ c ∈ cns, c ∉ t.columns.map Prod.fst ∨ c ∈ existing) →
      (alterGo t existing type_ cns).2 = false ∧
      (alterGo t existing type_ cns).1.columns =
        t.columns ++
          (cns.filter (fun c => decide (c ∉ existing))).map
            (fun c => (c, type_)) := by
  intro cns
  induction cns with
  | nil =>
    intro t _ _
    exact ⟨rfl, by simp [alterGo]⟩
  | cons c cs ih =>
    intro t hnd hgood
    simp only [List.nodup_cons] at hnd
    by_cases hex : c ∈ existing
    · rw [alterGo_cons, if_pos hex,
        List.filter_cons_of_neg (by simp [hex])]
      exact ih t hnd.2 (fun c' hc' => hgood c' (List.mem_cons_of_mem c hc'))
    · have hnotin : c ∉ t.columns.map Prod.fst := by
        rcases hgood c (List.mem_cons_self c cs) with h | h
        · exact h
        · exact absurd h hex
      rw [alterGo_cons, if_neg hex, if_neg hnotin,
        List.filter_cons_of_pos (by simp [hex])]
      have hgood' : ∀ c' ∈ cs,
          c' ∉ ({ t with columns := t.columns ++ [(c, type_)] } :
            TableData).columns.map Prod.fst ∨ c' ∈ existing := by
        intro c' hc'
        rcases hgood c' (List.mem_cons_of_mem c hc') with h | h
        · left
          simp only [List.map_append, List.mem_append]
          intro hcon
          rcases hcon with hcon | hcon
          · exact h hcon
          · simp only [List.map_cons, List.map_nil,
              List.mem_singleton] at hcon
            exact hnd.1 (hcon ▸ hc')
        · right
          exact h
      obtain ⟨hflag, hcols⟩ := ih _ hnd.2 hgood'
      refine ⟨hflag, ?_⟩
      rw [hcols]
      simp

/-- Claim C6 counterexample: a duplicated absent column name makes the
second `ADD COLUMN` DDL statement fail (duplicate column); the error is not
`NoSuchTableError`, so it escapes and aborts the loop before the later name
`b` is added — although `b` is a listed name not present in the table. -/
theorem c6_alter_table_counterexample :
    DatabaseOperator.alter_table
        [("p", ⟨[("time", ColType.tInteger)], []⟩)] "p" ["a", "a", "b"]
        ColType.tFloat =
      ([("p", ⟨[("time", ColType.tInteger), ("a", ColType.tFloat)], []⟩)],
        true) ∧
    "b" ∈ ["a", "a", "b"] ∧
    "b" ∉ (⟨[("time", ColType.tInteger)], []⟩ : TableData).columns.map
      Prod.fst ∧
    "b" ∉ (⟨[("time", ColType.tInteger), ("a", ColType.tFloat)], []⟩ :
      TableData).columns.map Prod.fst := by
  decide

/-- Claim C6 (amended): `alter_table` on an existing table is additive-only:
the rows and the existing columns are kept unchanged, every added column
carries the given type and a listed name that was absent; when the listed
names have no duplicates it adds exactly the listed-and-absent names (in
list order) and no error escapes; a missing table makes the call a no-op
(the `NoSuchTableError` is swallowed).  (A duplicated absent name aborts the
loop with an escaped error after the first occurrence is added, so the later
names are then not reached — see the counterexample.) -/
theorem c6_alter_table_amended (db : DB) (table_name : String)
    (column_names : List String) (type_ : ColType) :
    (lookupA table_name db = none →
      DatabaseOperator.alter_table db table_name column_names type_ =
        (db, false)) ∧
    (∀ t, lookupA table_name db = some t →
      ∃ t2 err delta,
        DatabaseOperator.alter_table db table_name column_names type_ =
          (setA db table_name t2, err) ∧
        t2.rows = t.rows ∧
        t2.columns = t.columns ++ delta ∧
        (∀ cc ∈ delta, cc.2 = type_ ∧ cc.1 ∈ column_names ∧
          cc.1 ∉ t.columns.map Prod.fst) ∧
        (column_names.Nodup →
          err = false ∧
          t2.columns = t.columns ++
            (column_names.filter
              (fun c => decide (c ∉ t.columns.map Prod.fst))).map
              (fun c => (c, type_)))) := by
  constructor
  · intro h
    unfold DatabaseOperator.alter_table
    rw [h]
  · intro t ht
    unfold DatabaseOperator.alter_table
    rw [ht]
    show ∃ t2 err delta,
      (setA db table_name
          (alterGo t (t.columns.map Prod.fst) type_ column_names).1,
        (alterGo t (t.columns.map Prod.fst) type_ column_names).2) =
        (setA db table_name t2, err) ∧ _
    refine ⟨(alterGo t (t.columns.map Prod.fst) type_ column_names).1,
      (alterGo t (t.columns.map Prod.fst) type_ column_names).2, ?_⟩
    obtain ⟨delta, hcol, hrows, hprop⟩ :=
      alterGo_spec (t.columns.map Prod.fst) type_ column_names t
    refine ⟨delta, rfl, hrows, hcol, hprop, ?_⟩
    intro hnd
    exact alterGo_nodup (t.columns.map Prod.fst) type_ column_names t hnd
      (fun c _ => by
        by_cases h : c ∈ t.columns.map Prod.fst
        · exact Or.inr h
        · exact Or.inl h)

/-- Instantiation of `c6_alter_table_amended`: adding `["d", "e"]` to the
fixture table (which already has `d`) appends exactly one `e` column of the
requested type, keeps the rows, and escapes no error. -/
theorem c6_alter_table_witness :
    DatabaseOperator.alter_table sampleDB "p" ["d", "e"] ColType.tFloat =
      ([("p", ⟨[("time", ColType.tInteger), ("d", ColType.tFloat),
        ("e", ColType.tFloat)], sampleTable.rows⟩)], false) := by
  obtain ⟨-, h2⟩ := c6_alter_table_amended sampleDB "p" ["d", "e"]
    ColType.tFloat
  obtain ⟨t2, err, delta, heq, hrows, hcol, hprop, hnd⟩ := h2 sampleTable rfl
  obtain ⟨herr, hcols2⟩ := hnd (by decide)
  have hrhs : sampleTable.columns ++
      ((["d", "e"].filter
        (fun c => decide (c ∉ sampleTable.columns.map Prod.fst))).map
        (fun c => (c, ColType.tFloat))) =
      [("time", ColType.tInteger), ("d", ColType.tFloat),
        ("e", ColType.tFloat)] := by decide
  rw [hrhs] at hcols2
  have ht2 : t2 = ⟨[("time", ColType.tInteger), ("d", ColType.tFloat),
      ("e", ColType.tFloat)], sampleTable.rows⟩ := by
    cases t2
    simp only at hrows hcols2
    rw [hrows, hcols2]
  rw [ht2, herr] at heq
  rw [heq]
  rw [show setA sampleDB "p" (⟨[("time", ColType.tInteger),
      ("d", ColType.tFloat), ("e", ColType.tFloat)],
      sampleTable.rows⟩ : TableData) =
    [("p", ⟨[("time", ColType.tInteger), ("d", ColType.tFloat),
      ("e", ColType.tFloat)], sampleTable.rows⟩)] from by decide]

theorem processReadings_append (chk : Bool) (ct : Int) :
    ∀ (rs1 rs2 : List (String × Param)) (acc : List (String × Rec)),
      processReadings chk ct acc (rs1 ++ rs2) =
        processReadings chk ct (processReadings chk ct acc rs1) rs2
  | [], _, _ => rfl
  | r :: rs1, rs2, acc => by
      simp only [List.cons_append, processReadings]
      exact processReadings_append chk ct rs1 rs2 _

theorem processReadings_map_params (chk : Bool) (ct : Int) (dname : String) :
    ∀ (params : List Param) (acc : List (String × Rec)),
      processReadings chk ct acc (params.map (fun p => (dname, p))) =
        params.foldl (fun acc param =>
          if skipReading chk ct param then acc
          else insertReading acc ct param.name dname param.value) acc
  | [], _ => rfl
  | p :: ps, acc => by
      simp only [List.map_cons, processReadings, List.foldl_cons]
      exact processReadings_map_params chk ct dname ps _

theorem get_data_to_save_fold_eq (chk : Bool) (ct : Int) :
    ∀ (devs : List Device) (acc : List (String × Rec)),
      devs.foldl (fun acc device =>
        device.params_dict.foldl (fun acc param =>
          if skipReading chk ct param then acc
          else insertReading acc ct param.name device.name param.value)
          acc) acc =
      processReadings chk ct acc (readingsOf devs)
  | [], _ => rfl
  | d :: ds, acc => by
      simp only [List.foldl_cons, readingsOf]
      rw [processReadings_append, processReadings_map_params]
      exact get_data_to_save_fold_eq chk ct ds _

theorem get_data_to_save_eq (chk : Bool) (ct : Int) (devs : List Device) :
    CollectedDataOperator.get_data_to_save ct devs chk =
      processReadings chk ct [] (readingsOf devs) :=
  get_data_to_save_fold_eq chk ct devs []

theorem mem_readingsOf : ∀ (devs : List Device) (r : String × Param),
    r ∈ readingsOf devs ↔ ∃ d ∈ devs, r.1 = d.name ∧ r.2 ∈ d.params_dict
  | [], r => by simp [readingsOf]
  | d :: ds, r => by
      simp only [readingsOf, List.mem_append, List.mem_map,
        mem_readingsOf ds r, List.mem_cons]
      constructor
      · rintro (⟨p, hp, rfl⟩ | ⟨d', hd', h1, h2⟩)
        · exact ⟨d, Or.inl rfl, rfl, hp⟩
        · exact ⟨d', Or.inr hd', h1, h2⟩
      · rintro ⟨d', hd' | hd', h1, h2⟩
        · subst hd'
          left
          exact ⟨r.2, h2, by rw [← h1]⟩
        · exact Or.inr ⟨d', hd', h1, h2⟩

theorem insertReading_keys (acc : List (String × Rec)) (ct : Int)
    (pname dname : String) (v : Value) (pn : String) :
    pn ∈ (insertReading acc ct pname dname v).map Prod.fst ↔
      pn ∈ acc.map Prod.fst ∨ pn = pname := by
  unfold insertReading
  rw [dictSet_map_fst]
  by_cases hmem : pname ∈ acc.map Prod.fst
  · rw [if_pos hmem]
    constructor
    · exact Or.inl
    · rintro (h | rfl)
      · exact h
      · exact hmem
  · rw [if_neg hmem]
    simp [List.mem_append]

theorem processReadings_keys (chk : Bool) (ct : Int) :
    ∀ (rs : List (String × Param)) (acc : List (String × Rec)) (pn : String),
      pn ∈ (processReadings chk ct acc rs).map Prod.fst ↔
        pn ∈ acc.map Prod.fst ∨
          ∃ r ∈ rs, skipReading chk ct r.2 = false ∧ r.2.name = pn
  | [], acc, pn => by simp [processReadings]
  | r :: rs, acc, pn => by
      simp only [processReadings]
      by_cases hskip : skipReading chk ct r.2
      · rw [if_pos hskip, processReadings_keys chk ct rs acc pn]
        constructor
        · rintro (h | ⟨r', hr', h1, h2⟩)
          · exact Or.inl h
          · exact Or.inr ⟨r', List.mem_cons_of_mem r hr', h1, h2⟩
        · rintro (h | ⟨r', hr', h1, h2⟩)
          · exact Or.inl h
          · rcases List.mem_cons.mp hr' with rfl | hr''
            · rw [hskip] at h1
              cases h1
            · exact Or.inr ⟨r', hr'', h1, h2⟩
      · rw [if_neg hskip,
          processReadings_keys chk ct rs
            (insertReading acc ct r.2.name r.1 r.2.value) pn]
        rw [insertReading_keys]
        constructor
        · rintro ((h | rfl) | ⟨r', hr', h1, h2⟩)
          · exact Or.inl h
          · exact Or.inr ⟨r, List.mem_cons_self r rs,
              Bool.eq_false_iff.mpr hskip, rfl⟩
          · exact Or.inr ⟨r', List.mem_cons_of_mem r hr', h1, h2⟩
        · rintro (h | ⟨r', hr', h1, h2⟩)
          · exact Or.inl (Or.inl h)
          · rcases List.mem_cons.mp hr' with rfl | hr''
            · exact Or.inl (Or.inr h2.symm)
            · exact Or.inr ⟨r', hr'', h1, h2⟩

theorem processReadings_nodup (chk : Bool) (ct : Int) :
    ∀ (rs : List (String × Param)) (acc : List (String × Rec)),
      (acc.map Prod.fst).Nodup →
      ((processReadings chk ct acc rs).map Prod.fst).Nodup
  | [], _, h => h
  | r :: rs, acc, h => by
      simp only [processReadings]
      by_cases hskip : skipReading chk ct r.2
      · rw [if_pos hskip]
        exact processReadings_nodup chk ct rs acc h
      · rw [if_neg hskip]
        exact processReadings_nodup chk ct rs _ (dictSet_nodup_fst _ _ _ h)

theorem insertReading_time (acc : List (String × Rec)) (ct : Int)
    (pname dname : String) (v : Value) (hd : dname ≠ "time")
    (hacc : ∀ pn r0, lookupA pn acc = some r0 →
      lookupA "time" r0 = some (Value.vint ct)) :
    ∀ pn r0, lookupA pn (insertReading acc ct pname dname v) = some r0 →
      lookupA "time" r0 = some (Value.vint ct) := by
  intro pn r0 h
  unfold insertReading at h
  rw [lookupA_dictSet] at h
  by_cases hpn : pn = pname
  · rw [if_pos hpn] at h
    cases Option.some.inj h
    rw [lookupA_dictSet, if_neg (fun hc => hd hc.symm)]
    rcases hrec : lookupA pname acc with _ | r1
    · show lookupA "time" (dictSet [] "time" (Value.vint ct)) =
        some (Value.vint ct)
      rw [lookupA_dictSet, if_pos rfl]
    · exact hacc pname r1 hrec
  · rw [if_neg hpn] at h
    exact hacc pn r0 h

theorem processReadings_time (chk : Bool) (ct : Int) :
    ∀ (rs : List (String × Param)) (acc : List (String × Rec)),
      (∀ r ∈ rs, r.1 ≠ "time") →
      (∀ pn r0, lookupA pn acc = some r0 →
        lookupA "time" r0 = some (Value.vint ct)) →
      ∀ pn r0, lookupA pn (processReadings chk ct acc rs) = some r0 →
        lookupA "time" r0 = some (Value.vint ct)
  | [], _, _, hacc => hacc
  | r :: rs, acc, hrs, hacc => by
      simp only [processReadings]
      by_cases hskip : skipReading chk ct r.2
      · rw [if_pos hskip]
        exact processReadings_time chk ct rs acc
          (fun r' hr' => hrs r' (List.mem_cons_of_mem r hr')) hacc
      · rw [if_neg hskip]
        exact processReadings_time chk ct rs _
          (fun r' hr' => hrs r' (List.mem_cons_of_mem r hr'))
          (insertReading_time acc ct r.2.name r.1 r.2.value
            (hrs r (List.mem_cons_self r rs)) hacc)

theorem insertReading_lookupDev_self (acc : List (String × Rec)) (ct : Int)
    (pname dname : String) (v : Value) :
    lookupDev pname dname (insertReading acc ct pname dname v) = some v := by
  unfold insertReading lookupDev
  rw [lookupA_dictSet, if_pos rfl]
  show lookupA dname (dictSet (match lookupA pname acc with
    | none => dictSet [] "time" (Value.vint ct)
    | some r => r) dname v) = some v
  rw [lookupA_dictSet, if_pos rfl]

theorem insertReading_lookupDev_other (acc : List (String × Rec)) (ct : Int)
    (pname dname pn0 dn0 : String) (v : Value) (hdn : dn0 ≠ "time")
    (hne : pname ≠ pn0 ∨ (pname = pn0 ∧ dname ≠ dn0)) :
    lookupDev pn0 dn0 (insertReading acc ct pname dname v) =
      lookupDev pn0 dn0 acc := by
  unfold insertReading lookupDev
  rw [lookupA_dictSet]
  rcases hne with hne | ⟨heq, hne⟩
  · rw [if_neg (fun hc => hne hc.symm)]
  · subst heq
    rw [if_pos rfl]
    show lookupA dn0 (dictSet (match lookupA pname acc with
      | none => dictSet [] "time" (Value.vint ct)
      | some r => r) dname v) =
      match lookupA pname acc with
      | none => none
      | some r => lookupA dn0 r
    rw [lookupA_dictSet, if_neg (fun hc => hne hc.symm)]
    rcases hrec : lookupA pname acc with _ | r1
    · show lookupA dn0 (dictSet [] "time" (Value.vint ct)) = none
      rw [lookupA_dictSet, if_neg hdn]
      rfl
    · rfl

theorem processReadings_lookupDev (chk : Bool) (ct : Int) (p₀ : Param)
    (dn₀ : String) (hdn : dn₀ ≠ "time") :
    ∀ (rs : List (String × Param)) (acc : List (String × Rec)),
      (∀ r ∈ rs, r.1 = dn₀ → r.2.name = p₀.name → r.2 = p₀) →
      lookupDev p₀.name dn₀ (processReadings chk ct acc rs) =
        if rs.any (fun r => decide (r.1 = dn₀) &&
            decide (r.2.name = p₀.name) && !skipReading chk ct r.2) then
          some p₀.value
        else lookupDev p₀.name dn₀ acc
  | [], acc, _ => by simp [processReadings]
  | r :: rs, acc, hocc => by
      have hocc' : ∀ r' ∈ rs, r'.1 = dn₀ → r'.2.name = p₀.name → r'.2 = p₀ :=
        fun r' hr' => hocc r' (List.mem_cons_of_mem r hr')
      simp only [processReadings, List.any_cons]
      by_cases hbt : rs.any (fun r => decide (r.1 = dn₀) &&
          decide (r.2.name = p₀.name) && !skipReading chk ct r.2)
      · rw [processReadings_lookupDev chk ct p₀ dn₀ hdn rs _ hocc',
          if_pos hbt, if_pos (by rw [hbt, Bool.or_true])]
      · by_cases hskip : skipReading chk ct r.2
        · rw [if_pos hskip,
            processReadings_lookupDev chk ct p₀ dn₀ hdn rs acc hocc',
            if_neg hbt]
          rw [if_neg ?_]
          rw [Bool.or_eq_true, not_or]
          refine ⟨?_, fun hc => hbt hc⟩
          rw [hskip]
          simp
        · by_cases hcond : r.1 = dn₀ ∧ r.2.name = p₀.name
          · have hr2 : r.2 = p₀ :=
              hocc r (List.mem_cons_self r rs) hcond.1 hcond.2
            rw [if_neg hskip,
              processReadings_lookupDev chk ct p₀ dn₀ hdn rs _ hocc',
              if_neg hbt]
            rw [if_pos ?_]
            · rw [hr2, hcond.1]
              exact insertReading_lookupDev_self acc ct p₀.name dn₀ p₀.value
            · rw [Bool.or_eq_true]
              left
              rw [hcond.1, hcond.2]
              simp [hskip]
          · rw [if_neg hskip,
              processReadings_lookupDev chk ct p₀ dn₀ hdn rs _ hocc',
              if_neg hbt]
            rw [if_neg ?_]
            · apply insertReading_lookupDev_other acc ct r.2.name r.1
                p₀.name dn₀ r.2.value hdn
              by_cases h1 : r.2.name = p₀.name
              · right
                refine ⟨h1, ?_⟩
                intro hc
                exact hcond ⟨hc, h1⟩
              · left
                exact h1
            · rw [Bool.or_eq_true, not_or]
              refine ⟨?_, fun hc => hbt hc⟩
              intro hc
              simp only [Bool.and_eq_true, decide_eq_true_eq,
                Bool.not_eq_true'] at hc
              exact hcond ⟨hc.1.1, hc.1.2⟩

/-- Claim C3: `get_data_to_save` groups readings into one record per
distinct parameter name, each of the form `{'time': cur_time, device: value,
...}`; with `do_time_check` a device's reading is recorded if and only if
the parameter was collected right now (`last_collected = cur_time`) or the
parameter is the `online` one; without `do_time_check` every reading is
recorded. -/
theorem c3_get_data_to_save (cur_time : Int) (given_devices : List Device)
    (do_time_check : Bool)
    (hdev_nodup : (given_devices.map Device.name).Nodup)
    (hdev_time : ∀ d ∈ given_devices, d.name ≠ "time")
    (hparam_nodup : ∀ d ∈ given_devices,
      (d.params_dict.map Param.name).Nodup) :
    ((CollectedDataOperator.get_data_to_save cur_time given_devices
      do_time_check).map Prod.fst).Nodup ∧
    (∀ pn, pn ∈ (CollectedDataOperator.get_data_to_save cur_time
        given_devices do_time_check).map Prod.fst ↔
      ∃ d ∈ given_devices, ∃ p ∈ d.params_dict, p.name = pn ∧
        skipReading do_time_check cur_time p = false) ∧
    (∀ pn r0, lookupA pn (CollectedDataOperator.get_data_to_save cur_time
        given_devices do_time_check) = some r0 →
      lookupA "time" r0 = some (Value.vint cur_time)) ∧
    (∀ d ∈ given_devices, ∀ p ∈ d.params_dict,
      (skipReading do_time_check cur_time p = false →
        lookupDev p.name d.name (CollectedDataOperator.get_data_to_save
          cur_time given_devices do_time_check) = some p.value) ∧
      (skipReading do_time_check cur_time p = true →
        lookupDev p.name d.name (CollectedDataOperator.get_data_to_save
          cur_time given_devices do_time_check) = none)) ∧
    (∀ p : Param, skipReading do_time_check cur_time p = false ↔
      (do_time_check = false ∨ p.last_collected = cur_time ∨
        p.name = "online")) := by
  have heq := get_data_to_save_eq do_time_check cur_time given_devices
  refine ⟨?_, ?_, ?_, ?_, ?_⟩
  · rw [heq]
    exact processReadings_nodup _ _ _ [] (by simp)
  · intro pn
    rw [heq, processReadings_keys]
    simp only [List.map_nil, List.not_mem_nil, false_or]
    constructor
    · rintro ⟨r, hr, h1, h2⟩
      obtain ⟨d, hd, hname, hp⟩ := (mem_readingsOf given_devices r).mp hr
      exact ⟨d, hd, r.2, hp, h2, h1⟩
    · rintro ⟨d, hd, p, hp, h2, h1⟩
      refine ⟨(d.name, p), ?_, h1, h2⟩
      exact (mem_readingsOf given_devices (d.name, p)).mpr ⟨d, hd, rfl, hp⟩
  · intro pn r0 h
    rw [heq] at h
    refine processReadings_time do_time_check cur_time
      (readingsOf given_devices) [] ?_ ?_ pn r0 h
    · intro r hr
      obtain ⟨d, hd, hname, _⟩ := (mem_readingsOf given_devices r).mp hr
      rw [hname]
      exact hdev_time d hd
    · intro pn' r0' h'
      simp [lookupA] at h'
  · intro d hd p hp
    have hocc : ∀ r ∈ readingsOf given_devices,
        r.1 = d.name → r.2.name = p.name → r.2 = p := by
      intro r hr h1 h2
      obtain ⟨d', hd', hname, hp'⟩ := (mem_readingsOf given_devices r).mp hr
      have hdd : d' = d :=
        List.inj_on_of_nodup_map hdev_nodup hd' hd (hname.symm.trans h1)
      rw [hdd] at hp'
      exact List.inj_on_of_nodup_map (hparam_nodup d hd) hp' hp h2
    constructor
    · intro hskip
      have hany : (readingsOf given_devices).any
          (fun r => decide (r.1 = d.name) && decide (r.2.name = p.name) &&
            !skipReading do_time_check cur_time r.2) = true := by
        rw [List.any_eq_true]
        refine ⟨(d.name, p),
          (mem_readingsOf given_devices (d.name, p)).mpr ⟨d, hd, rfl, hp⟩, ?_⟩
        simp [hskip]
      rw [heq, processReadings_lookupDev do_time_check cur_time p d.name
        (hdev_time d hd) (readingsOf given_devices) [] hocc, if_pos hany]
    · intro hskip
      have hany : (readingsOf given_devices).any
          (fun r => decide (r.1 = d.name) && decide (r.2.name = p.name) &&
            !skipReading do_time_check cur_time r.2) = false := by
        rw [Bool.eq_false_iff, Ne, List.any_eq_true]
        rintro ⟨r, hr, hcond⟩
        simp only [Bool.and_eq_true, decide_eq_true_eq,
          Bool.not_eq_true'] at hcond
        have hr2 := hocc r hr hcond.1.1 hcond.1.2
        rw [hr2, hskip] at hcond
        cases hcond.2
      rw [heq, processReadings_lookupDev do_time_check cur_time p d.name
        (hdev_time d hd) (readingsOf given_devices) [] hocc, hany,
        if_neg Bool.false_ne_true]
      rfl
  · intro p
    cases do_time_check <;> simp [skipReading]
    tauto

/-- Instantiation of `c3_get_data_to_save` at time 50 with the time check
on: the freshly collected `CpuTemp1` readings of both devices are grouped,
the stale `CpuTemp2` reading is dropped, and the stale `online` reading is
still recorded. -/
theorem c3_get_data_to_save_witness :
    lookupDev "CpuTemp1" "dev1"
      (CollectedDataOperator.get_data_to_save 50 [dev1, dev2] true) =
      some (Value.vdec 1) ∧
    lookupDev "CpuTemp2" "dev1"
      (CollectedDataOperator.get_data_to_save 50 [dev1, dev2] true) =
      none ∧
    lookupDev "online" "dev1"
      (CollectedDataOperator.get_data_to_save 50 [dev1, dev2] true) =
      some (Value.vbool true) ∧
    lookupDev "CpuTemp1" "dev2"
      (CollectedDataOperator.get_data_to_save 50 [dev1, dev2] true) =
      some (Value.vdec 3) := by
  obtain ⟨-, -, -, h4, -⟩ := c3_get_data_to_save 50 [dev1, dev2] true
    (by decide) (by decide) (by decide)
  exact ⟨(h4 dev1 (by decide) pCpu1a (by decide)).1 (by decide),
    (h4 dev1 (by decide) pCpu2a (by decide)).2 (by decide),
    (h4 dev1 (by decide) pOnline (by decide)).1 (by decide),
    (h4 dev2 (by decide) pCpu1b (by decide)).1 (by decide)⟩
